import Mathlib

/-!
Verification of the document-ingestion core of the `ocr-service` repository
(`parsers.py`): the text normalizer `clean_text`, the PDF and XLSX parsers,
and the MIME dispatcher `process_document`.

Python strings are modelled as `List Char`.  `str.strip()` is modelled by
dropping Python-whitespace characters from both ends (`List.dropWhile`
composed with `List.rdropWhile`), `text.split('\n')` by `List.splitOn '\n'`
and `"\n".join` by `List.intercalate ['\n']`, which have exactly the Python
semantics (empty segments are kept).  Parsers run file I/O and external
libraries; those effects are modelled by oracles (the page contents of a
PDF, the cell values of a workbook, the outcome of a parser's internal
work), while the logic of the repository's own code is translated
faithfully.
-/

namespace OcrService

/-- The set of characters Python's `str.strip()` (with no argument) removes:
exactly the characters `c` with `c.isspace()` true in CPython. -/
def pyWs (c : Char) : Bool :=
  c == ' ' || c == '\t' || c == '\n' || c == '\r' || c == '\x0b' || c == '\x0c' ||
  c == '\x1c' || c == '\x1d' || c == '\x1e' || c == '\x1f' || c == '\x85' || c == '\xa0' ||
  c == '\u1680' || ('\u2000' ≤ c && c ≤ '\u200a') || c == '\u2028' || c == '\u2029' ||
  c == '\u202f' || c == '\u205f' || c == '\u3000'

/-- Remove the elements satisfying `p` from both ends of a list.  With
`p := pyWs` this is Python's `str.strip()`; with `p := List.isEmpty` it
trims empty lines from both ends of a line list. -/
def stripBoth (p : α → Bool) (l : List α) : List α :=
  List.rdropWhile p (List.dropWhile p l)

/-- Model of `s.strip()` on a Python string. -/
def pyStrip (l : List Char) : List Char :=
  stripBoth pyWs l

/-- Model of `re.sub(r'\n+', '\n', text)`: collapse every maximal run of
newline characters to a single newline.  The recursion keeps the last
newline of each run, which yields the same string as keeping the first. -/
def collapseNL : List Char → List Char
  | [] => []
  | [c] => [c]
  | a :: b :: t =>
    if a = '\n' ∧ b = '\n' then collapseNL (b :: t)
    else a :: collapseNL (b :: t)

/-- Model of `text.split('\n')` (Python `str.split` with an explicit
separator keeps empty segments). -/
def splitNL (l : List Char) : List (List Char) :=
  l.splitOn '\n'

/-- Model of `"\n".join(lines)`. -/
def joinNL (ls : List (List Char)) : List Char :=
  List.intercalate ['\n'] ls

/-- Model of `clean_text` from `parsers.py`:
`text = re.sub(r'\n+', '\n', text)`;
`text = "\n".join([line.strip() for line in text.split('\n')])`;
`return text.strip()`. -/
def clean_text (s : List Char) : List Char :=
  pyStrip (joinNL ((splitNL (collapseNL s)).map pyStrip))

/-- Trimming the empty lines from both ends of a list of lines; this is the
line-level effect of the final `.strip()` of `clean_text`. -/
def trimE (M : List (List Char)) : List (List Char) :=
  stripBoth List.isEmpty M

/-! ### The PDF parser -/

/-- One page of an opened PDF document, as the `parse_pdf` loop observes it:
`textLayer` is what `page.extract_text()` returns (a possibly empty string;
`None` is modelled as the empty string since the source only tests its
truthiness), and `ocrText` is what
`pytesseract.image_to_string(page.to_image().original)` would return for
that page. -/
structure PdfPage where
  textLayer : List Char
  ocrText : List Char
deriving DecidableEq

/-- The text contributed by one page in `parse_pdf`: the text layer if it is
truthy (non-empty), otherwise the OCR output for the rasterized page. -/
def pdfPageText (p : PdfPage) : List Char :=
  if p.textLayer ≠ [] then p.textLayer else p.ocrText

/-- Model of the loop of `parse_pdf`: `text = ""`, then for every page in
order `text += page_text + "\n"` where `page_text` is the text layer when
truthy and the OCR output otherwise. -/
def parse_pdf (pages : List PdfPage) : List Char :=
  pages.foldl (fun acc p => acc ++ pdfPageText p ++ ['\n']) []

/-! ### The XLSX parser -/

/-- A cell value as `openpyxl` yields it (`cell.value`): absent (`None`), a
string, an integer, or a boolean.  Floats and dates are outside this model's
scope; the claims under study only need values whose Python truthiness and
`str()` form are discrete. -/
inductive CellValue where
  | none
  | str (s : List Char)
  | int (n : Int)
  | bool (b : Bool)
deriving DecidableEq

/-- Python truthiness of a cell value, as tested by `if cell.value`. -/
def pyTruthy : CellValue → Bool
  | CellValue.none => false
  | CellValue.str s => !s.isEmpty
  | CellValue.int n => decide (n ≠ 0)
  | CellValue.bool b => b

/-- Python `str(cell.value)`. -/
def pyStr : CellValue → List Char
  | CellValue.none => "None".data
  | CellValue.str s => s
  | CellValue.int n => (toString n).data
  | CellValue.bool b => if b then "True".data else "False".data

/-- The text of one row in `parse_xlsx`:
`"\t".join([str(cell.value) for cell in row if cell.value])`. -/
def xlsxRow (row : List CellValue) : List Char :=
  List.intercalate ['\t'] ((row.filter pyTruthy).map pyStr)

/-- Model of `parse_xlsx`: a workbook is its sheets, a sheet its rows in
order, a row its cell values in column order; the loop appends each row's
tab-joined text plus a newline to one running accumulator. -/
def parse_xlsx (wb : List (List (List CellValue))) : List Char :=
  wb.foldl (fun acc sheet =>
    sheet.foldl (fun acc2 row => acc2 ++ xlsxRow row ++ ['\n']) acc) []

/-- The row text as the claim words it: tab-join the stringified values of
the NON-EMPTY cells (a cell is empty when it has no value, i.e. `None`).
This differs from the source, which keeps only truthy values. -/
def xlsxRowClaim (row : List CellValue) : List Char :=
  List.intercalate ['\t'] ((row.filter (fun c => !(c == CellValue.none))).map pyStr)

/-- The XLSX parser as the claim words it (same iteration, rows built by
`xlsxRowClaim`). -/
def parse_xlsx_claim (wb : List (List (List CellValue))) : List Char :=
  wb.foldl (fun acc sheet =>
    sheet.foldl (fun acc2 row => acc2 ++ xlsxRowClaim row ++ ['\n']) acc) []

/-! ### The dispatcher -/

/-- The twelve parser functions of `parsers.py`. -/
inductive ParserId where
  | pdf | docx | xlsx | pptx | text | csv | odt | rtf | html | image | epub | markdown
deriving DecidableEq

/-- The format name each parser writes into its `ParsingError` message. -/
def formatName : ParserId → String
  | ParserId.pdf => "PDF"
  | ParserId.docx => "DOCX"
  | ParserId.xlsx => "XLSX"
  | ParserId.pptx => "PPTX"
  | ParserId.text => "text file"
  | ParserId.csv => "CSV"
  | ParserId.odt => "ODT"
  | ParserId.rtf => "RTF"
  | ParserId.html => "HTML"
  | ParserId.image => "image"
  | ParserId.epub => "EPUB"
  | ParserId.markdown => "Markdown"

/-- The exceptions the module can raise: `UnsupportedFileType` and
`ParsingError` from `parsers.py`, and `other` for any exception raised by
code outside the parsers' `try` blocks. -/
inductive PyExc where
  | unsupportedFileType (msg : String)
  | parsingError (msg : String)
  | other (msg : String)
deriving DecidableEq

instance {α β : Type} [DecidableEq α] [DecidableEq β] : DecidableEq (Except α β)
  | Except.ok a, Except.ok b =>
    if h : a = b then Decidable.isTrue (by rw [h]) else Decidable.isFalse (by simpa using h)
  | Except.ok _, Except.error _ => Decidable.isFalse (by simp)
  | Except.error _, Except.ok _ => Decidable.isFalse (by simp)
  | Except.error a, Except.error b =>
    if h : a = b then Decidable.isTrue (by rw [h]) else Decidable.isFalse (by simpa using h)

/-- The shared shape of all twelve parsers:
`try: <work> except Exception as e: raise ParsingError(f"Error parsing <fmt>: {e}")`.
`body` is the outcome of the parser's internal work (`Except.error e` models
any internal exception whose string form is `e`). -/
def runParserBody (pid : ParserId) (body : Except String (List Char)) :
    Except PyExc (List Char) :=
  match body with
  | Except.ok t => Except.ok t
  | Except.error e =>
      Except.error (PyExc.parsingError ("Error parsing " ++ formatName pid ++ ": " ++ e))

/-- The `parser_dispatcher_mime` dictionary of `process_document`, as a
lookup function. -/
def parser_dispatcher_mime (m : String) : Option ParserId :=
  if m = "application/pdf" then some ParserId.pdf
  else if m = "image/jpeg" then some ParserId.image
  else if m = "image/png" then some ParserId.image
  else if m = "image/tiff" then some ParserId.image
  else if m = "application/vnd.openxmlformats-officedocument.wordprocessingml.document" then
    some ParserId.docx
  else if m = "application/vnd.openxmlformats-officedocument.spreadsheetml.sheet" then
    some ParserId.xlsx
  else if m = "application/vnd.openxmlformats-officedocument.presentationml.presentation" then
    some ParserId.pptx
  else if m = "text/plain" then some ParserId.text
  else if m = "text/csv" then some ParserId.csv
  else if m = "application/vnd.oasis.opendocument.text" then some ParserId.odt
  else if m = "application/rtf" then some ParserId.rtf
  else if m = "text/rtf" then some ParserId.rtf
  else if m = "text/html" then some ParserId.html
  else if m = "application/epub+zip" then some ParserId.epub
  else if m = "text/markdown" then some ParserId.markdown
  else none

/-- The fifteen parser-backed MIME types of the section 6 contract list. -/
def registered_mime_types : List String :=
  ["application/pdf", "image/jpeg", "image/png", "image/tiff",
   "application/vnd.openxmlformats-officedocument.wordprocessingml.document",
   "application/vnd.openxmlformats-officedocument.spreadsheetml.sheet",
   "application/vnd.openxmlformats-officedocument.presentationml.presentation",
   "text/plain", "text/csv", "application/vnd.oasis.opendocument.text",
   "application/rtf", "text/rtf", "text/html", "application/epub+zip",
   "text/markdown"]

/-- Python `p.rfind(c)`: the highest index of `c` in `p`, or `-1`. -/
def rfindIdx (l : List Char) (c : Char) : Int :=
  (l.foldl (fun (st : Int × Int) a => (st.1 + 1, if a = c then st.1 else st.2))
    ((0 : Int), (-1 : Int))).2

/-- Model of `os.path.splitext(p)[1]` for POSIX paths (CPython
`genericpath._splitext` with `sep='/'`, `extsep='.'`): the extension starts
at the last dot, provided it lies after the last path separator and the
basename does not consist solely of leading dots up to it. -/
def pySplitextExt (p : List Char) : List Char :=
  let sepIndex := rfindIdx p '/'
  let dotIndex := rfindIdx p '.'
  if sepIndex < dotIndex then
    if (List.range p.length).any (fun i =>
        decide (sepIndex < (i : Int)) && decide ((i : Int) < dotIndex) &&
        !(p.getD i '.' == '.')) then
      p.drop dotIndex.toNat
    else []
  else []

/-- Model of `str.lower()`.  `Char.toLower` lowercases the ASCII range,
which covers the extensions the dispatcher compares against. -/
def pyLower (l : List Char) : List Char :=
  l.map Char.toLower

/-- The inputs `process_document` inspects about a file on disk: its size
(`os.path.getsize`), the MIME type `magic.from_file(path, mime=True)`
sniffs from its bytes, and its path (used only for the extension). -/
structure FileOnDisk where
  size : Nat
  sniffedMime : String
  path : String

/-- Lines 205–218 of `parsers.py`: choose a parser and the resolved MIME
type from the sniffed type and the lower-cased extension. -/
def chooseHandler (mime_type : String) (file_extension : String) :
    Option ParserId × String :=
  if mime_type = "text/plain" then
    if file_extension = ".csv" then (some ParserId.csv, "text/csv")
    else if file_extension = ".md" then (some ParserId.markdown, "text/markdown")
    else (some ParserId.text, mime_type)
  else (parser_dispatcher_mime mime_type, mime_type)

/-- Lines 220–223 of `parsers.py`: invoke the chosen parser, normalize its
raw text, and pair it with the resolved type; a parser's exception
propagates unchanged (there is no `try` around the call). -/
def dispatch_result (run : ParserId → Except PyExc (List Char)) (p : ParserId)
    (mime_type : String) : Except PyExc (List Char × String) :=
  match run p with
  | Except.ok raw => Except.ok (clean_text raw, mime_type)
  | Except.error e => Except.error e

/-- Model of `process_document`: `run` is the oracle giving each parser's
outcome on this file. -/
def process_document (f : FileOnDisk) (run : ParserId → Except PyExc (List Char)) :
    Except PyExc (List Char × String) :=
  if f.size = 0 then Except.ok ([], "inode/x-empty")
  else
    let file_extension := String.mk (pyLower (pySplitextExt f.path.data))
    match chooseHandler f.sniffedMime file_extension with
    | (some parser, m) => dispatch_result run parser m
    | (none, m) => Except.error (PyExc.unsupportedFileType ("Unsupported file type: " ++ m))

/-- A parser oracle for witnesses: every parser succeeds with fixed text. -/
def runOk : ParserId → Except PyExc (List Char) :=
  fun _ => Except.ok "sample text".data

/-! ### Splitting and joining on newlines -/

theorem splitNL_ne_nil (l : List Char) : splitNL l ≠ [] := by
  simpa [splitNL, List.splitOn] using List.splitOnP_ne_nil (· == '\n') l

theorem joinNL_splitNL (l : List Char) : joinNL (splitNL l) = l :=
  List.intercalate_splitOn l '\n'

theorem splitNL_joinNL {M : List (List Char)} (hM : M ≠ [])
    (hnf : ∀ x ∈ M, '\n' ∉ x) : splitNL (joinNL M) = M :=
  List.splitOn_intercalate M '\n' hnf hM

theorem splitNL_nil : splitNL [] = [[]] := rfl

theorem joinNL_nil : joinNL [] = [] := rfl

theorem joinNL_singleton (x : List Char) : joinNL [x] = x := by
  simp [joinNL, List.intercalate]

theorem joinNL_cons_cons (x y : List Char) (t : List (List Char)) :
    joinNL (x :: y :: t) = x ++ '\n' :: joinNL (y :: t) := by
  simp [joinNL, List.intercalate, List.intersperse_cons_cons]

theorem splitNL_cons_nl (t : List Char) : splitNL ('\n' :: t) = [] :: splitNL t := by
  simp [splitNL, List.splitOn, List.splitOnP_cons]

theorem splitNL_nf {l : List Char} (h : '\n' ∉ l) : splitNL l = [l] := by
  show l.splitOn '\n' = [l]
  rw [List.splitOn]
  refine List.splitOnP_eq_single _ _ ?_
  intro x hx
  simp only [beq_iff_eq]
  exact fun hxeq => h (hxeq ▸ hx)

theorem splitNL_first {x : List Char} (hx : '\n' ∉ x) (t : List Char) :
    splitNL (x ++ '\n' :: t) = x :: splitNL t := by
  show (x ++ '\n' :: t).splitOn '\n' = x :: t.splitOn '\n'
  rw [List.splitOn, List.splitOn]
  refine List.splitOnP_first _ _ ?_ '\n' (by simp) t
  intro y hy
  simp only [beq_iff_eq]
  exact fun h => hx (h ▸ hy)

theorem mem_splitNL_nf {l y : List Char} (hy : y ∈ splitNL l) : '\n' ∉ y := by
  induction l generalizing y with
  | nil =>
    rw [splitNL_nil, List.mem_singleton] at hy
    subst hy; simp
  | cons c t ih =>
    by_cases hc : c = '\n'
    · subst hc
      rw [splitNL_cons_nl, List.mem_cons] at hy
      rcases hy with rfl | hy
      · simp
      · exact ih hy
    · obtain ⟨h0, tl, ht⟩ : ∃ h0 tl, splitNL t = h0 :: tl := by
        cases hsp : splitNL t with
        | nil => exact absurd hsp (splitNL_ne_nil t)
        | cons a b => exact ⟨a, b, rfl⟩
      have hcons : splitNL (c :: t) = (c :: h0) :: tl := by
        show (c :: t).splitOn '\n' = (c :: h0) :: tl
        rw [List.splitOn, List.splitOnP_cons]
        have hcf : (c == '\n') = false := by simpa using hc
        rw [hcf]
        simp only [if_neg Bool.false_ne_true]
        have ht2 : List.splitOnP (fun x => x == '\n') t = h0 :: tl := ht
        rw [ht2]
        rfl
      have hh0 : h0 ∈ splitNL t := by rw [ht]; exact List.mem_cons_self h0 tl
      rw [hcons, List.mem_cons] at hy
      rcases hy with rfl | hy
      · intro hmem
        rcases List.mem_cons.mp hmem with h | h
        · exact hc h.symm
        · exact ih hh0 h
      · have hytl : y ∈ splitNL t := by rw [ht]; exact List.mem_cons_of_mem h0 hy
        exact ih hytl

/-! ### Collapsing newline runs -/

theorem collapseNL_nil : collapseNL [] = [] := rfl

theorem collapseNL_cons_ne {a : Char} (ha : a ≠ '\n') (t : List Char) :
    collapseNL (a :: t) = a :: collapseNL t := by
  cases t with
  | nil => rfl
  | cons b r => simp [collapseNL, ha]

theorem collapseNL_nl_nl (t : List Char) :
    collapseNL ('\n' :: '\n' :: t) = collapseNL ('\n' :: t) := by
  simp [collapseNL]

theorem collapseNL_nl_cons {b : Char} (hb : b ≠ '\n') (t : List Char) :
    collapseNL ('\n' :: b :: t) = '\n' :: collapseNL (b :: t) := by
  simp [collapseNL, hb]

theorem collapseNL_append_nf (t : List Char) :
    ∀ {x : List Char}, '\n' ∉ x → collapseNL (x ++ t) = x ++ collapseNL t := by
  intro x
  induction x with
  | nil => intro _; rfl
  | cons c x' ih =>
    intro hx
    have hc : c ≠ '\n' := fun h => hx (h ▸ List.mem_cons_self c x')
    have hx' : '\n' ∉ x' := fun h => hx (List.mem_cons_of_mem c h)
    calc collapseNL ((c :: x') ++ t) = collapseNL (c :: (x' ++ t)) := rfl
    _ = c :: collapseNL (x' ++ t) := collapseNL_cons_ne hc _
    _ = c :: (x' ++ collapseNL t) := by rw [ih hx']
    _ = (c :: x') ++ collapseNL t := rfl

theorem collapseNL_nf {x : List Char} (hx : '\n' ∉ x) : collapseNL x = x := by
  simpa [collapseNL_nil] using collapseNL_append_nf [] hx

theorem collapseNL_joinNL : ∀ {M : List (List Char)},
    (∀ x ∈ M, x ≠ [] ∧ '\n' ∉ x) → collapseNL (joinNL M) = joinNL M := by
  intro M
  induction M with
  | nil => intro _; rfl
  | cons x M ih =>
    intro h
    cases M with
    | nil =>
      rw [joinNL_singleton]
      exact collapseNL_nf (h x (List.mem_singleton_self x)).2
    | cons y M' =>
      have hx := h x (List.mem_cons_self x (y :: M'))
      have hy := h y (List.mem_cons_of_mem x (List.mem_cons_self y M'))
      rw [joinNL_cons_cons, collapseNL_append_nf _ hx.2]
      congr 1
      obtain ⟨c, y', rfl⟩ : ∃ c y', y = c :: y' := by
        cases y with
        | nil => exact absurd rfl hy.1
        | cons a b => exact ⟨a, b, rfl⟩
      have hc : c ≠ '\n' := fun hcn => hy.2 (hcn ▸ List.mem_cons_self c y')
      obtain ⟨r, hr⟩ : ∃ r, joinNL ((c :: y') :: M') = c :: r := by
        cases M' with
        | nil => exact ⟨y', by rw [joinNL_singleton]⟩
        | cons z M'' => exact ⟨y' ++ '\n' :: joinNL (z :: M''), by rw [joinNL_cons_cons]; rfl⟩
      have ihr := ih (fun z hz => h z (List.mem_cons_of_mem x hz))
      rw [hr] at ihr ⊢
      rw [collapseNL_nl_cons hc, ihr]

/-! ### Generic facts about `stripBoth` -/

theorem stripBoth_subset {p : α → Bool} (l : List α) : stripBoth p l ⊆ l := by
  intro a ha
  have h1 : a ∈ List.dropWhile p l :=
    ( List.rdropWhile_prefix p (List.dropWhile p l)).subset ha
  exact List.dropWhile_subset p h1

theorem dropWhile_head_false {p : α → Bool} {l : List α} {x : α} {t : List α}
    (h : List.dropWhile p l = x :: t) : p x = false := by
  induction l with
  | nil => simp at h
  | cons a l ih =>
    rw [List.dropWhile_cons] at h
    by_cases hp : p a = true
    · rw [if_pos hp] at h
      exact ih h
    · rw [if_neg hp] at h
      injection h with h1 _
      subst h1
      simpa using hp

theorem getLast?_dropWhile {p : α → Bool} {l : List α} (h : List.dropWhile p l ≠ []) :
    (List.dropWhile p l).getLast? = l.getLast? := by
  induction l with
  | nil => simp at h
  | cons a l ih =>
    by_cases hp : p a = true
    · have hd : List.dropWhile p (a :: l) = List.dropWhile p l := by
        rw [List.dropWhile_cons, if_pos hp]
      rw [hd] at h ⊢
      rw [ih h]
      cases l with
      | nil => simp at h
      | cons b m => exact (List.getLast?_cons_cons).symm
    · have hd : List.dropWhile p (a :: l) = a :: l := by
        rw [List.dropWhile_cons, if_neg hp]
      rw [hd]

theorem stripBoth_eq_self_iff {p : α → Bool} {l : List α} :
    stripBoth p l = l ↔ List.dropWhile p l = l ∧ List.rdropWhile p l = l := by
  constructor
  · intro h
    have hsub := List.dropWhile_sublist (l := l) p
    have hlen1 : (List.dropWhile p l).length ≤ l.length := hsub.length_le
    have hlen2 : (stripBoth p l).length ≤ (List.dropWhile p l).length :=
      ( List.rdropWhile_prefix p (List.dropWhile p l)).length_le
    have e1 : (stripBoth p l).length = l.length := by rw [h]
    have hge : l.length ≤ (List.dropWhile p l).length := by rw [← e1]; exact hlen2
    have hdw : List.dropWhile p l = l := hsub.eq_of_length (le_antisymm hlen1 hge)
    refine ⟨hdw, ?_⟩
    rw [stripBoth, hdw] at h
    exact h
  · intro hh
    rw [stripBoth, hh.1, hh.2]

theorem stripBoth_head_false {p : α → Bool} {l : List α} {x : α} {t : List α}
    (h : stripBoth p l = x :: t) : p x = false := by
  simp only [stripBoth] at h
  obtain ⟨r, hr⟩ := List.rdropWhile_prefix p (List.dropWhile p l)
  apply dropWhile_head_false (l := l) (t := t ++ r)
  rw [← hr, h]
  rfl

theorem stripBoth_getLast_false {p : α → Bool} {l : List α} {x : α}
    (h : (stripBoth p l).getLast? = some x) : p x = false := by
  have hne : stripBoth p l ≠ [] := by
    intro he
    rw [he] at h
    simp at h
  have hlast := List.rdropWhile_last_not p (List.dropWhile p l) (by simpa [stripBoth] using hne)
  have h2 : (stripBoth p l).getLast? = some ((stripBoth p l).getLast hne) :=
    List.getLast?_eq_getLast _ hne
  have hx : (stripBoth p l).getLast hne = x := Option.some.inj (h2.symm.trans h)
  rw [← hx]
  simpa using hlast

theorem stripBoth_idem {p : α → Bool} (l : List α) :
    stripBoth p (stripBoth p l) = stripBoth p l := by
  rw [stripBoth_eq_self_iff]
  constructor
  · cases hs : stripBoth p l with
    | nil => simp
    | cons x t =>
      have hx := stripBoth_head_false hs
      simp [List.dropWhile_cons, hx]
  · simp only [stripBoth]
    exact List.rdropWhile_idempotent p _

theorem stripBoth_eq_self {p : α → Bool} {l : List α} (h : ∀ x ∈ l, p x = false) :
    stripBoth p l = l := by
  have hdw : List.dropWhile p l = l := by
    cases l with
    | nil => rfl
    | cons a t =>
      rw [List.dropWhile_cons, h a (List.mem_cons_self a t)]
      simp
  rw [stripBoth, hdw]
  rw [List.rdropWhile_eq_self_iff]
  intro hl
  rw [h _ (List.getLast_mem hl)]
  simp

/-! ### Stripping a joined line list -/

theorem pyStrip_idem (l : List Char) : pyStrip (pyStrip l) = pyStrip l :=
  stripBoth_idem l

theorem pyStrip_subset {l : List Char} : pyStrip l ⊆ l :=
  stripBoth_subset l

theorem pyStrip_reverse {y : List Char} (hy : pyStrip y = y) :
    pyStrip y.reverse = y.reverse := by
  have hy2 := (stripBoth_eq_self_iff (p := pyWs)).mp hy
  show stripBoth pyWs y.reverse = y.reverse
  rw [stripBoth_eq_self_iff]
  constructor
  · have h2 := hy2.2
    rw [List.rdropWhile] at h2
    calc List.dropWhile pyWs y.reverse
        = ((List.dropWhile pyWs y.reverse).reverse).reverse := (List.reverse_reverse _).symm
      _ = y.reverse := by rw [h2]
  · rw [List.rdropWhile, List.reverse_reverse, hy2.1]

theorem dropWhile_pyWs_joinNL : ∀ {M : List (List Char)}, (∀ x ∈ M, pyStrip x = x) →
    List.dropWhile pyWs (joinNL M) = joinNL (M.dropWhile List.isEmpty) := by
  intro M
  induction M with
  | nil => intro _; rfl
  | cons x M ih =>
    intro h
    cases x with
    | nil =>
      cases M with
      | nil => simp [joinNL_singleton, joinNL_nil]
      | cons y M' =>
        rw [joinNL_cons_cons, List.nil_append]
        have hws : pyWs '\n' = true := by decide
        rw [List.dropWhile_cons, if_pos hws]
        rw [ih (fun z hz => h z (List.mem_cons_of_mem _ hz))]
        simp [List.dropWhile_cons]
    | cons c x' =>
      have hx := h _ (List.mem_cons_self _ M)
      have hc : pyWs c = false := stripBoth_head_false hx
      cases M with
      | nil => simp [joinNL_singleton, List.dropWhile_cons, hc]
      | cons y M' =>
        rw [joinNL_cons_cons, List.cons_append, List.dropWhile_cons, hc]
        simp only [Bool.false_eq_true, if_false]
        rw [List.dropWhile_cons]
        simp [joinNL_cons_cons]

theorem joinNL_append_single : ∀ {A : List (List Char)}, A ≠ [] → ∀ (b : List Char),
    joinNL (A ++ [b]) = joinNL A ++ '\n' :: b := by
  intro A
  induction A with
  | nil => exact fun hA => absurd rfl hA
  | cons a A' ih =>
    intro _ b
    cases A' with
    | nil =>
      rw [show ([a] ++ [b] : List (List Char)) = [a, b] from rfl,
        joinNL_cons_cons, joinNL_singleton, joinNL_singleton]
    | cons a2 A'' =>
      rw [show ((a :: a2 :: A'') ++ [b] : List (List Char)) = a :: ((a2 :: A'') ++ [b]) from rfl]
      rw [show ((a2 :: A'') ++ [b] : List (List Char)) = a2 :: (A'' ++ [b]) from rfl]
      rw [joinNL_cons_cons, show (a2 :: (A'' ++ [b]) : List (List Char)) = (a2 :: A'') ++ [b] from rfl]
      rw [ih (by simp) b, joinNL_cons_cons]
      simp

theorem reverse_joinNL : ∀ (M : List (List Char)),
    (joinNL M).reverse = joinNL ((M.map List.reverse).reverse) := by
  intro M
  induction M with
  | nil => rfl
  | cons x M ih =>
    cases M with
    | nil => simp [joinNL_singleton]
    | cons y M' =>
      rw [joinNL_cons_cons, List.reverse_append, List.reverse_cons, ih]
      rw [show (List.map List.reverse (x :: y :: M')).reverse
          = (List.map List.reverse (y :: M')).reverse ++ [x.reverse] by simp]
      rw [joinNL_append_single (by simp) x.reverse]
      simp

theorem mem_trimE {M : List (List Char)} {x : List Char} (hx : x ∈ trimE M) : x ∈ M :=
  stripBoth_subset M hx

theorem trimE_eq_self {M : List (List Char)} (h : ∀ x ∈ M, x ≠ []) : trimE M = M :=
  stripBoth_eq_self (fun x hx => by simpa using h x hx)

theorem trimE_head_ne {M : List (List Char)} {x : List Char} {t : List (List Char)}
    (h : trimE M = x :: t) : x ≠ [] := by
  have hf : List.isEmpty x = false := stripBoth_head_false h
  simpa using hf

theorem trimE_getLast_ne {M : List (List Char)} {x : List Char}
    (h : (trimE M).getLast? = some x) : x ≠ [] := by
  have hf : List.isEmpty x = false := stripBoth_getLast_false h
  simpa using hf

theorem pyStrip_joinNL {M : List (List Char)} (h : ∀ x ∈ M, pyStrip x = x) :
    pyStrip (joinNL M) = joinNL (trimE M) := by
  have hrev : ∀ x ∈ (((M.dropWhile List.isEmpty).map List.reverse).reverse), pyStrip x = x := by
    intro x hx
    rw [List.mem_reverse] at hx
    obtain ⟨y, hy, rfl⟩ := List.mem_map.mp hx
    exact pyStrip_reverse (h y (List.dropWhile_subset _ hy))
  have hfun : (List.isEmpty ∘ List.reverse : List Char → Bool) = List.isEmpty := by
    funext x
    cases x <;> simp
  calc pyStrip (joinNL M)
      = List.rdropWhile pyWs (List.dropWhile pyWs (joinNL M)) := rfl
    _ = List.rdropWhile pyWs (joinNL (M.dropWhile List.isEmpty)) := by
        rw [dropWhile_pyWs_joinNL h]
    _ = (List.dropWhile pyWs ((joinNL (M.dropWhile List.isEmpty)).reverse)).reverse := rfl
    _ = (List.dropWhile pyWs
          (joinNL (((M.dropWhile List.isEmpty).map List.reverse).reverse))).reverse := by
        rw [reverse_joinNL]
    _ = (joinNL ((((M.dropWhile List.isEmpty).map List.reverse).reverse).dropWhile
          List.isEmpty)).reverse := by
        rw [dropWhile_pyWs_joinNL hrev]
    _ = joinNL (trimE M) := by
        rw [show ((M.dropWhile List.isEmpty).map List.reverse).reverse
            = ((M.dropWhile List.isEmpty).reverse).map List.reverse by
          rw [List.map_reverse]]
        rw [List.dropWhile_map, hfun]
        rw [reverse_joinNL]
        rw [List.map_map]
        rw [show (((M.dropWhile List.isEmpty).reverse.dropWhile List.isEmpty).map
            (List.reverse ∘ List.reverse)) = ((M.dropWhile List.isEmpty).reverse.dropWhile
            List.isEmpty).map id by
          refine List.map_congr_left ?_
          intro a _
          simp]
        rw [List.map_id]
        rfl

theorem clean_text_eq_joinNL_trimE (s : List Char) :
    clean_text s = joinNL (trimE ((splitNL (collapseNL s)).map pyStrip)) := by
  rw [clean_text]
  refine pyStrip_joinNL ?_
  intro x hx
  obtain ⟨y, _, rfl⟩ := List.mem_map.mp hx
  exact pyStrip_idem y

/-! ### Collapsing a joined line list -/

theorem map_self {f : α → α} : ∀ {l : List α}, (∀ x ∈ l, f x = x) → l.map f = l := by
  intro l
  induction l with
  | nil => intro _; rfl
  | cons a t ih =>
    intro h
    rw [List.map_cons, h a (List.mem_cons_self a t), ih (fun x hx => h x (List.mem_cons_of_mem a hx))]

theorem collapseNL_nl_joinNL : ∀ {M : List (List Char)}, M ≠ [] →
    (∀ x ∈ M, '\n' ∉ x) → (∀ x, M.getLast? = some x → x ≠ []) →
    ∃ w, collapseNL ('\n' :: joinNL M) = '\n' :: w ∧
      splitNL w = M.filter (fun x => !x.isEmpty) := by
  intro M
  induction M with
  | nil => exact fun hM => absurd rfl hM
  | cons x M' ih =>
    intro _ hnf hlast
    cases M' with
    | nil =>
      have hx : x ≠ [] := hlast x (by simp)
      obtain ⟨c, x', rfl⟩ := List.exists_cons_of_ne_nil hx
      have hxnf : '\n' ∉ c :: x' := hnf _ (List.mem_singleton_self _)
      have hc : c ≠ '\n' := fun h => hxnf (h ▸ List.mem_cons_self c x')
      refine ⟨c :: x', ?_, ?_⟩
      · rw [joinNL_singleton, collapseNL_nl_cons hc, collapseNL_nf hxnf]
      · rw [splitNL_nf hxnf]
        simp
    | cons y M'' =>
      have hlast' : ∀ z, (y :: M'').getLast? = some z → z ≠ [] := by
        intro z hz
        exact hlast z (by rw [List.getLast?_cons_cons]; exact hz)
      have hnf' : ∀ z ∈ (y :: M''), '\n' ∉ z := fun z hz => hnf z (List.mem_cons_of_mem x hz)
      obtain ⟨w, hw, hsw⟩ := ih (by simp) hnf' hlast'
      cases x with
      | nil =>
        refine ⟨w, ?_, ?_⟩
        · rw [joinNL_cons_cons, List.nil_append, collapseNL_nl_nl, hw]
        · rw [hsw]
          simp [List.filter_cons]
      | cons c x' =>
        have hxnf : '\n' ∉ (c :: x') := hnf _ (List.mem_cons_self _ _)
        have hc : c ≠ '\n' := fun h => hxnf (h ▸ List.mem_cons_self c x')
        refine ⟨(c :: x') ++ '\n' :: w, ?_, ?_⟩
        · rw [joinNL_cons_cons]
          rw [show ('\n' :: ((c :: x') ++ '\n' :: joinNL (y :: M'')))
              = ('\n' :: c :: (x' ++ '\n' :: joinNL (y :: M''))) from rfl]
          rw [collapseNL_nl_cons hc]
          rw [show (c :: (x' ++ '\n' :: joinNL (y :: M'')))
              = ((c :: x') ++ '\n' :: joinNL (y :: M'')) from rfl]
          rw [collapseNL_append_nf _ hxnf, hw]
        · rw [splitNL_first hxnf, hsw]
          simp [List.filter_cons]

theorem splitNL_collapseNL_joinNL {M : List (List Char)} (hM : M ≠ [])
    (hnf : ∀ x ∈ M, '\n' ∉ x)
    (hhead : ∀ x t, M = x :: t → x ≠ [])
    (hlast : ∀ x, M.getLast? = some x → x ≠ []) :
    splitNL (collapseNL (joinNL M)) = M.filter (fun x => !x.isEmpty) := by
  cases M with
  | nil => exact absurd rfl hM
  | cons x M' =>
    have hx : x ≠ [] := hhead x M' rfl
    obtain ⟨c, x', rfl⟩ := List.exists_cons_of_ne_nil hx
    have hxnf : '\n' ∉ c :: x' := hnf _ (List.mem_cons_self _ _)
    cases M' with
    | nil =>
      rw [joinNL_singleton, collapseNL_nf hxnf, splitNL_nf hxnf]
      simp [List.filter_cons, hx]
    | cons y M'' =>
      have hlast' : ∀ z, (y :: M'').getLast? = some z → z ≠ [] := by
        intro z hz
        exact hlast z (by rw [List.getLast?_cons_cons]; exact hz)
      have hnf' : ∀ z ∈ (y :: M''), '\n' ∉ z := fun z hz => hnf z (List.mem_cons_of_mem _ hz)
      obtain ⟨w, hw, hsw⟩ := collapseNL_nl_joinNL (by simp) hnf' hlast'
      rw [joinNL_cons_cons, collapseNL_append_nf _ hxnf, hw, splitNL_first hxnf, hsw]
      simp [List.filter_cons]

/-- Strings whose lines are all nonempty and already stripped are fixed
points of `clean_text`. -/
theorem clean_text_fixed {t : List Char}
    (h : ∀ x ∈ splitNL t, x ≠ [] ∧ pyStrip x = x) : clean_text t = t := by
  have hnf : ∀ x ∈ splitNL t, '\n' ∉ x := fun x hx => mem_splitNL_nf hx
  have hcol : collapseNL t = t := by
    conv_lhs => rw [← joinNL_splitNL t]
    rw [collapseNL_joinNL (fun x hx => ⟨(h x hx).1, hnf x hx⟩)]
    exact joinNL_splitNL t
  rw [clean_text, hcol, map_self (fun x hx => (h x hx).2),
    pyStrip_joinNL (fun x hx => (h x hx).2), trimE_eq_self (fun x hx => (h x hx).1),
    joinNL_splitNL]

/-! ### Structure of `clean_text` output -/

theorem splitNL_clean_text_eq (s : List Char)
    (h0 : trimE ((splitNL (collapseNL s)).map pyStrip) ≠ []) :
    splitNL (clean_text s) = trimE ((splitNL (collapseNL s)).map pyStrip) := by
  rw [clean_text_eq_joinNL_trimE]
  refine splitNL_joinNL h0 ?_
  intro z hz
  obtain ⟨y, hy, rfl⟩ := List.mem_map.mp (mem_trimE hz)
  intro hmem
  exact mem_splitNL_nf hy (pyStrip_subset hmem)

theorem clean_text_lines_stripped (s : List Char) :
    ∀ x ∈ splitNL (clean_text s), pyStrip x = x := by
  intro x hx
  by_cases h0 : trimE ((splitNL (collapseNL s)).map pyStrip) = []
  · have h1 : clean_text s = [] := by
      rw [clean_text_eq_joinNL_trimE, h0]
      rfl
    rw [h1, splitNL_nil, List.mem_singleton] at hx
    subst hx
    decide
  · rw [splitNL_clean_text_eq s h0] at hx
    obtain ⟨y, hy, rfl⟩ := List.mem_map.mp (mem_trimE hx)
    exact pyStrip_idem y

/-- C1 (counterexample): `clean_text` is not idempotent.  On
`"a\n \nb"` — whose middle line is whitespace but not empty — one
application yields `"a\n\nb"` (the middle line strips to empty, creating a
blank line), and a second application collapses the new blank line, giving
`"a\nb"`. -/
theorem claim_C1_counterexample :
    clean_text (clean_text "a\n \nb".data) ≠ clean_text "a\n \nb".data := by
  decide

/-- C1 (amended): `clean_text` is not idempotent, but two applications
reach a fixed point: `clean_text (clean_text (clean_text s)) =
clean_text (clean_text s)` for every string `s`. -/
theorem claim_C1_amended (s : List Char) :
    clean_text (clean_text (clean_text s)) = clean_text (clean_text s) := by
  by_cases h0 : trimE ((splitNL (collapseNL s)).map pyStrip) = []
  · have h1 : clean_text s = [] := by
      rw [clean_text_eq_joinNL_trimE, h0]
      rfl
    have h2 : clean_text ([] : List Char) = [] := by decide
    rw [h1, h2, h2]
  · have hSF : ∀ x ∈ splitNL (clean_text s), pyStrip x = x := clean_text_lines_stripped s
    have hNF : ∀ x ∈ splitNL (clean_text s), '\n' ∉ x := fun x hx => mem_splitNL_nf hx
    have hhead : ∀ x t, splitNL (clean_text s) = x :: t → x ≠ [] := by
      intro x t hxt
      rw [splitNL_clean_text_eq s h0] at hxt
      exact trimE_head_ne hxt
    have hlast : ∀ x, (splitNL (clean_text s)).getLast? = some x → x ≠ [] := by
      intro x hx
      rw [splitNL_clean_text_eq s h0] at hx
      exact trimE_getLast_ne hx
    have hK := splitNL_collapseNL_joinNL (splitNL_ne_nil (clean_text s)) hNF hhead hlast
    rw [joinNL_splitNL] at hK
    have hF : ∀ x ∈ (splitNL (clean_text s)).filter (fun x => !x.isEmpty),
        x ≠ [] ∧ pyStrip x = x := by
      intro x hx
      have hm := List.mem_filter.mp hx
      exact ⟨by simpa using hm.2, hSF x hm.1⟩
    have ht2 : clean_text (clean_text s)
        = joinNL ((splitNL (clean_text s)).filter (fun x => !x.isEmpty)) := by
      rw [clean_text, hK, map_self (fun x hx => (hF x hx).2),
        pyStrip_joinNL (fun x hx => (hF x hx).2), trimE_eq_self (fun x hx => (hF x hx).1)]
    by_cases hFnil : (splitNL (clean_text s)).filter (fun x => !x.isEmpty) = []
    · rw [ht2, hFnil]
      have h2 : clean_text ([] : List Char) = [] := by decide
      calc clean_text (joinNL []) = clean_text [] := rfl
        _ = [] := h2
        _ = joinNL [] := rfl
    · have hsplit : splitNL (joinNL ((splitNL (clean_text s)).filter (fun x => !x.isEmpty)))
          = (splitNL (clean_text s)).filter (fun x => !x.isEmpty) :=
        splitNL_joinNL hFnil (fun x hx => hNF x (List.mem_of_mem_filter hx))
      rw [ht2]
      refine clean_text_fixed ?_
      rw [hsplit]
      exact hF

/-- C2 (counterexample): on the spec's own example `"a\n\n\nb \n \nc"`,
`clean_text` returns `"a\nb\n\nc"` — which still contains a blank line (a
run of two newlines) — and not the claimed `"a\nb\nc"`. -/
theorem claim_C2_counterexample :
    clean_text "a\n\n\nb \n \nc".data = "a\nb\n\nc".data ∧
      "a\nb\n\nc".data ≠ "a\nb\nc".data := by
  decide

/-- C2 (amended): for every string `s`, the whole of `clean_text s` has no
leading or trailing whitespace, and no line of `clean_text s` has leading
or trailing whitespace; but blank lines (runs of consecutive newlines) can
remain when the input has whitespace-only nonempty lines, and on the
example `"a\n\n\nb \n \nc"` the output is `"a\nb\n\nc"`, not `"a\nb\nc"`. -/
theorem claim_C2_amended :
    (∀ s : List Char, pyStrip (clean_text s) = clean_text s ∧
      ∀ x ∈ splitNL (clean_text s), pyStrip x = x) ∧
    clean_text "a\n\n\nb \n \nc".data = "a\nb\n\nc".data := by
  constructor
  · intro s
    exact ⟨by rw [clean_text]; exact pyStrip_idem _, clean_text_lines_stripped s⟩
  · decide

/-- Witness for C2 (amended) at the concrete input `" a b \n\nc "`. -/
theorem claim_C2_witness :
    pyStrip (clean_text " a b \n\nc ".data) = clean_text " a b \n\nc ".data ∧
      pyStrip "a b".data = "a b".data := by
  refine ⟨(claim_C2_amended.1 " a b \n\nc ".data).1, ?_⟩
  exact (claim_C2_amended.1 " a b \n\nc ".data).2 "a b".data (by decide)

/-! ### Dispatcher claims -/

/-- C3: a zero-byte file makes `process_document` return
`("", "inode/x-empty")` immediately — whatever the sniffed MIME type, the
filename, or the parsers would return (no sniffing or parser call can
influence the result, which is the same for every `mime`, `path` and
`run`). -/
theorem claim_C3 (mime path : String) (run : ParserId → Except PyExc (List Char)) :
    process_document ⟨0, mime, path⟩ run = Except.ok ([], "inode/x-empty") := by
  simp [process_document]

/-- C4: for a non-empty file sniffed `text/plain`, an extension `.csv`
routes to the CSV parser with resolved type `text/csv`, `.md` to the
Markdown parser with `text/markdown`, and anything else to the plain-text
parser keeping `text/plain`; when the sniffed type is not `text/plain` the
filename never affects the outcome. -/
theorem claim_C4 :
    (∀ (sz : Nat) (path : String) (run : ParserId → Except PyExc (List Char)), sz ≠ 0 →
      (String.mk (pyLower (pySplitextExt path.data)) = ".csv" →
        process_document ⟨sz, "text/plain", path⟩ run
          = dispatch_result run ParserId.csv "text/csv") ∧
      (String.mk (pyLower (pySplitextExt path.data)) = ".md" →
        process_document ⟨sz, "text/plain", path⟩ run
          = dispatch_result run ParserId.markdown "text/markdown") ∧
      (String.mk (pyLower (pySplitextExt path.data)) ≠ ".csv" →
        String.mk (pyLower (pySplitextExt path.data)) ≠ ".md" →
        process_document ⟨sz, "text/plain", path⟩ run
          = dispatch_result run ParserId.text "text/plain")) ∧
    (∀ (sz : Nat) (mime path₁ path₂ : String) (run : ParserId → Except PyExc (List Char)),
      mime ≠ "text/plain" →
      process_document ⟨sz, mime, path₁⟩ run = process_document ⟨sz, mime, path₂⟩ run) := by
  constructor
  · intro sz path run hsz
    refine ⟨?_, ?_, ?_⟩
    · intro h
      simp [process_document, chooseHandler, hsz, h]
    · intro h
      simp [process_document, chooseHandler, hsz, h]
    · intro h1 h2
      simp [process_document, chooseHandler, hsz, h1, h2]
  · intro sz mime p1 p2 run hm
    by_cases hsz : sz = 0
    · subst hsz
      simp [process_document]
    · simp [process_document, chooseHandler, hsz, hm]

/-- Witness for C4 at concrete files: `doc.csv` routes to CSV, `notes.txt`
stays plain text, and for a PDF-sniffed file the name is irrelevant. -/
theorem claim_C4_witness :
    process_document ⟨1, "text/plain", "doc.csv"⟩ runOk
        = dispatch_result runOk ParserId.csv "text/csv" ∧
      process_document ⟨1, "text/plain", "notes.txt"⟩ runOk
        = dispatch_result runOk ParserId.text "text/plain" ∧
      process_document ⟨1, "application/pdf", "a.csv"⟩ runOk
        = process_document ⟨1, "application/pdf", "b.md"⟩ runOk :=
  ⟨(claim_C4.1 1 "doc.csv" runOk (by decide)).1 (by decide),
   (claim_C4.1 1 "notes.txt" runOk (by decide)).2.2 (by decide) (by decide),
   claim_C4.2 1 "application/pdf" "a.csv" "b.md" runOk (by decide)⟩

/-- C10: the extension comparison happens on the lower-cased extension, so
any case variant of `.csv` (resp. `.md`) on a `text/plain`-sniffed file
resolves to `text/csv` (resp. `text/markdown`). -/
theorem claim_C10 (sz : Nat) (path : String) (run : ParserId → Except PyExc (List Char))
    (hsz : sz ≠ 0) :
    (pyLower (pySplitextExt path.data) = ".csv".data →
      process_document ⟨sz, "text/plain", path⟩ run
        = dispatch_result run ParserId.csv "text/csv") ∧
    (pyLower (pySplitextExt path.data) = ".md".data →
      process_document ⟨sz, "text/plain", path⟩ run
        = dispatch_result run ParserId.markdown "text/markdown") := by
  constructor
  · intro h
    have hs : String.mk (pyLower (pySplitextExt path.data)) = ".csv" := by rw [h]
    simp [process_document, chooseHandler, hsz, hs]
  · intro h
    have hs : String.mk (pyLower (pySplitextExt path.data)) = ".md" := by rw [h]
    simp [process_document, chooseHandler, hsz, hs]

/-- Witness for C10 at the upper-case extensions `DATA.CSV` and
`README.Md`. -/
theorem claim_C10_witness :
    process_document ⟨1, "text/plain", "DATA.CSV"⟩ runOk
        = dispatch_result runOk ParserId.csv "text/csv" ∧
      process_document ⟨1, "text/plain", "README.Md"⟩ runOk
        = dispatch_result runOk ParserId.markdown "text/markdown" :=
  ⟨(claim_C10 1 "DATA.CSV" runOk (by decide)).1 (by decide),
   (claim_C10 1 "README.Md" runOk (by decide)).2 (by decide)⟩

/-- C7: a non-empty file whose resolved type has no registered parser (the
sniffed type is neither in the dispatch table nor the always-handled
`text/plain`) makes `process_document` raise `UnsupportedFileType` carrying
that type, for every parser oracle — no parser can be invoked. -/
theorem claim_C7 (f : FileOnDisk) (run : ParserId → Except PyExc (List Char))
    (hsz : f.size ≠ 0) (hnp : parser_dispatcher_mime f.sniffedMime = none)
    (hplain : f.sniffedMime ≠ "text/plain") :
    process_document f run
      = Except.error (PyExc.unsupportedFileType ("Unsupported file type: " ++ f.sniffedMime)) := by
  simp [process_document, chooseHandler, hsz, hplain, hnp]

/-- Witness for C7 at a concrete zip-sniffed file. -/
theorem claim_C7_witness :
    process_document ⟨1, "application/zip", "a.zip"⟩ runOk
      = Except.error (PyExc.unsupportedFileType "Unsupported file type: application/zip") :=
  (claim_C7 ⟨1, "application/zip", "a.zip"⟩ runOk (by decide) (by decide) (by decide)).trans
    (by decide)

/-- C6: each parser wraps any internal failure into `ParsingError` whose
message carries the format name and the underlying message (so a parser
failure is always a `ParsingError`, never a raw lower-level exception), and
`process_document` propagates a chosen parser's exception unchanged. -/
theorem claim_C6 :
    (∀ (pid : ParserId) (e : String),
      runParserBody pid (Except.error e)
        = Except.error (PyExc.parsingError ("Error parsing " ++ formatName pid ++ ": " ++ e))) ∧
    (∀ (pid : ParserId) (body : Except String (List Char)) (exc : PyExc),
      runParserBody pid body = Except.error exc → ∃ msg, exc = PyExc.parsingError msg) ∧
    (∀ (f : FileOnDisk) (run : ParserId → Except PyExc (List Char)) (p : ParserId)
        (m : String) (exc : PyExc), f.size ≠ 0 →
      chooseHandler f.sniffedMime (String.mk (pyLower (pySplitextExt f.path.data)))
        = (some p, m) →
      run p = Except.error exc →
      process_document f run = Except.error exc) := by
  refine ⟨fun pid e => rfl, ?_, ?_⟩
  · intro pid body exc h
    cases body with
    | ok t => simp [runParserBody] at h
    | error e =>
      refine ⟨"Error parsing " ++ formatName pid ++ ": " ++ e, ?_⟩
      simpa [runParserBody] using h.symm
  · intro f run p m exc hsz hres hrun
    simp only [process_document, if_neg hsz]
    rw [hres]
    simp [dispatch_result, hrun]

/-- Witness for C6: a failing PDF parse produces the formatted
`ParsingError`, and `process_document` surfaces it unchanged. -/
theorem claim_C6_witness :
    runParserBody ParserId.pdf (Except.error "bad xref")
        = Except.error (PyExc.parsingError "Error parsing PDF: bad xref") ∧
      process_document ⟨7, "application/pdf", "broken.pdf"⟩
          (fun _ => Except.error (PyExc.parsingError "Error parsing PDF: bad xref"))
        = Except.error (PyExc.parsingError "Error parsing PDF: bad xref") := by
  constructor
  · exact (claim_C6.1 ParserId.pdf "bad xref").trans (by decide)
  · exact claim_C6.2.2 ⟨7, "application/pdf", "broken.pdf"⟩
      (fun _ => Except.error (PyExc.parsingError "Error parsing PDF: bad xref"))
      ParserId.pdf "application/pdf" (PyExc.parsingError "Error parsing PDF: bad xref")
      (by decide) (by decide) rfl

/-! ### The PDF parser claims -/

theorem parse_pdf_acc (l : List PdfPage) : ∀ a : List Char,
    l.foldl (fun acc p => acc ++ pdfPageText p ++ ['\n']) a
      = a ++ (l.map (fun p => pdfPageText p ++ ['\n'])).flatten := by
  induction l with
  | nil => intro a; simp
  | cons p l ih =>
    intro a
    rw [List.foldl_cons, ih]
    simp [List.append_assoc]

theorem parse_pdf_eq_flatten (l : List PdfPage) :
    parse_pdf l = (l.map (fun p => pdfPageText p ++ ['\n'])).flatten := by
  rw [parse_pdf, parse_pdf_acc]
  rfl

theorem flatten_terminated (xs : List (List Char)) :
    (xs.map (fun x => x ++ ['\n'])).flatten
      = joinNL xs ++ (if xs.isEmpty then [] else ['\n']) := by
  induction xs with
  | nil => rfl
  | cons x t ih =>
    cases t with
    | nil => simp [joinNL_singleton]
    | cons y t' =>
      rw [List.map_cons, List.flatten_cons, ih, joinNL_cons_cons]
      simp

theorem pdfPageText_congr {p q : PdfPage} (h1 : p.textLayer = q.textLayer)
    (h2 : p.textLayer = [] → p.ocrText = q.ocrText) : pdfPageText p = pdfPageText q := by
  by_cases hl : p.textLayer = []
  · simp [pdfPageText, hl, ← h1, h2 hl]
  · simp [pdfPageText, hl, ← h1]

/-- C5: `parse_pdf` newline-joins the per-page outputs in page order (each
page followed by a newline); a page's output is the OCR text exactly when
its text layer is empty and the text layer itself otherwise; and the OCR
oracle is only ever consulted for pages with an empty text layer — two page
lists with the same text layers that agree on the OCR output of
empty-layer pages (however the OCR of non-empty-layer pages differs)
parse identically. -/
theorem claim_C5 :
    (∀ pages : List PdfPage,
      parse_pdf pages
        = joinNL (pages.map pdfPageText) ++ (if pages.isEmpty then [] else ['\n'])) ∧
    (∀ p : PdfPage, (p.textLayer = [] → pdfPageText p = p.ocrText) ∧
      (p.textLayer ≠ [] → pdfPageText p = p.textLayer)) ∧
    (∀ pages₁ pages₂ : List PdfPage,
      List.Forall₂ (fun p q => p.textLayer = q.textLayer ∧
        (p.textLayer = [] → p.ocrText = q.ocrText)) pages₁ pages₂ →
      parse_pdf pages₁ = parse_pdf pages₂) := by
  refine ⟨?_, ?_, ?_⟩
  · intro pages
    rw [parse_pdf_eq_flatten]
    have h := flatten_terminated (pages.map pdfPageText)
    rw [List.map_map] at h
    simpa [Function.comp] using h
  · intro p
    constructor
    · intro h
      simp [pdfPageText, h]
    · intro h
      simp [pdfPageText, h]
  · intro l1 l2 h
    induction h with
    | nil => rfl
    | cons hpq htail ih =>
      rw [parse_pdf_eq_flatten, parse_pdf_eq_flatten] at ih ⊢
      rw [List.map_cons, List.map_cons, List.flatten_cons, List.flatten_cons, ih,
        pdfPageText_congr hpq.1 hpq.2]

/-- Witness for C5: a two-page document (one text page, one image-only
page), the per-page selection, and OCR-independence for a text page. -/
theorem claim_C5_witness :
    parse_pdf [⟨"page one".data, "ocr one".data⟩, ⟨[], "ocr two".data⟩]
        = joinNL [pdfPageText ⟨"page one".data, "ocr one".data⟩,
            pdfPageText ⟨[], "ocr two".data⟩] ++ ['\n'] ∧
      pdfPageText ⟨[], "ocr two".data⟩ = "ocr two".data ∧
      parse_pdf [⟨"t".data, "x".data⟩] = parse_pdf [⟨"t".data, "y".data⟩] := by
  refine ⟨?_, ?_, ?_⟩
  · exact (claim_C5.1 [⟨"page one".data, "ocr one".data⟩, ⟨[], "ocr two".data⟩]).trans
      (by decide)
  · exact (claim_C5.2.1 ⟨[], "ocr two".data⟩).1 rfl
  · exact claim_C5.2.2 [⟨"t".data, "x".data⟩] [⟨"t".data, "y".data⟩]
      (List.Forall₂.cons ⟨rfl, fun h => absurd h (by decide)⟩ List.Forall₂.nil)

/-! ### The XLSX parser claims -/

theorem xlsx_sheet_acc (sheet : List (List CellValue)) : ∀ a : List Char,
    sheet.foldl (fun acc2 row => acc2 ++ xlsxRow row ++ ['\n']) a
      = a ++ (sheet.map (fun row => xlsxRow row ++ ['\n'])).flatten := by
  induction sheet with
  | nil => intro a; simp
  | cons r t ih =>
    intro a
    rw [List.foldl_cons, ih]
    simp [List.append_assoc]

theorem parse_xlsx_acc (wb : List (List (List CellValue))) : ∀ a : List Char,
    wb.foldl (fun acc sheet =>
        sheet.foldl (fun acc2 row => acc2 ++ xlsxRow row ++ ['\n']) acc) a
      = a ++ (wb.map (fun sheet =>
          (sheet.map (fun row => xlsxRow row ++ ['\n'])).flatten)).flatten := by
  induction wb with
  | nil => intro a; simp
  | cons s t ih =>
    intro a
    rw [List.foldl_cons, xlsx_sheet_acc, ih]
    simp [List.append_assoc]

/-- C8 (counterexample): a workbook whose single cell holds the integer
`0` — a non-empty cell — produces an empty row (`"\n"`), not `"0\n"`: the
source keeps only cells with truthy values (`if cell.value`), which drops
`0` and `False` as well as empty cells. -/
theorem claim_C8_counterexample :
    parse_xlsx [[[CellValue.int 0]]] = ['\n'] ∧
      parse_xlsx_claim [[[CellValue.int 0]]] = ['0', '\n'] ∧
      parse_xlsx [[[CellValue.int 0]]] ≠ parse_xlsx_claim [[[CellValue.int 0]]] := by
  decide

/-- C8 (amended): `parse_xlsx` concatenates the sheets in workbook order;
within a sheet each row contributes its text followed by a newline, in row
order; and a row's text tab-joins the stringified values of its cells with
TRUTHY values in column order (cells holding `None` — and also `0`,
`False` or `""` — are dropped). -/
theorem claim_C8_amended (wb : List (List (List CellValue))) :
    parse_xlsx wb
      = (wb.map (fun sheet =>
          (sheet.map (fun row =>
            List.intercalate ['\t'] (((row.filter pyTruthy).map pyStr)) ++ ['\n'])).flatten)).flatten := by
  rw [parse_xlsx, parse_xlsx_acc]
  rfl

/-! ### The registry claim -/

/-- C9: the dispatch table registers exactly the fifteen parser-backed MIME
types of the section 6 list; for each of them the resolver finds a handler
(for any extension); zero-byte files produce the `inode/x-empty` sentinel;
and every non-empty file sniffing to a type outside the list is rejected
with `UnsupportedFileType` carrying that type. -/
theorem claim_C9 :
    (∀ m : String, (parser_dispatcher_mime m).isSome ↔ m ∈ registered_mime_types) ∧
    (∀ m ∈ registered_mime_types, ∀ ext : String, (chooseHandler m ext).1.isSome) ∧
    (∀ (m path : String) (run : ParserId → Except PyExc (List Char)),
      process_document ⟨0, m, path⟩ run = Except.ok ([], "inode/x-empty")) ∧
    (∀ m : String, m ∉ registered_mime_types → ∀ (path : String) (sz : Nat)
        (run : ParserId → Except PyExc (List Char)), sz ≠ 0 →
      process_document ⟨sz, m, path⟩ run
        = Except.error (PyExc.unsupportedFileType ("Unsupported file type: " ++ m))) := by
  have hnone : ∀ m : String, m ∉ registered_mime_types → parser_dispatcher_mime m = none := by
    intro m hm
    have n1 : m ≠ "application/pdf" := fun h => hm (by rw [h]; decide)
    have n2 : m ≠ "image/jpeg" := fun h => hm (by rw [h]; decide)
    have n3 : m ≠ "image/png" := fun h => hm (by rw [h]; decide)
    have n4 : m ≠ "image/tiff" := fun h => hm (by rw [h]; decide)
    have n5 : m ≠ "application/vnd.openxmlformats-officedocument.wordprocessingml.document" := fun h => hm (by rw [h]; decide)
    have n6 : m ≠ "application/vnd.openxmlformats-officedocument.spreadsheetml.sheet" := fun h => hm (by rw [h]; decide)
    have n7 : m ≠ "application/vnd.openxmlformats-officedocument.presentationml.presentation" := fun h => hm (by rw [h]; decide)
    have n8 : m ≠ "text/plain" := fun h => hm (by rw [h]; decide)
    have n9 : m ≠ "text/csv" := fun h => hm (by rw [h]; decide)
    have n10 : m ≠ "application/vnd.oasis.opendocument.text" := fun h => hm (by rw [h]; decide)
    have n11 : m ≠ "application/rtf" := fun h => hm (by rw [h]; decide)
    have n12 : m ≠ "text/rtf" := fun h => hm (by rw [h]; decide)
    have n13 : m ≠ "text/html" := fun h => hm (by rw [h]; decide)
    have n14 : m ≠ "application/epub+zip" := fun h => hm (by rw [h]; decide)
    have n15 : m ≠ "text/markdown" := fun h => hm (by rw [h]; decide)
    simp [parser_dispatcher_mime, n1, n2, n3, n4, n5, n6, n7, n8, n9, n10, n11, n12, n13, n14, n15]
  have hiff : ∀ m : String, (parser_dispatcher_mime m).isSome ↔ m ∈ registered_mime_types := by
    intro m
    by_cases hm : m ∈ registered_mime_types
    · refine iff_of_true ?_ hm
      fin_cases hm <;> decide
    · refine iff_of_false ?_ hm
      rw [hnone m hm]
      simp
  refine ⟨hiff, ?_, ?_, ?_⟩
  · intro m hm ext
    rw [chooseHandler]
    by_cases hp : m = "text/plain"
    · rw [if_pos hp]
      split_ifs <;> rfl
    · rw [if_neg hp]
      exact (hiff m).mpr hm
  · intro m path run
    simp [process_document]
  · intro m hm path sz run hsz
    have hplain : m ≠ "text/plain" := by
      intro h
      exact hm (h ▸ (by decide : ("text/plain" : String) ∈ registered_mime_types))
    simp [process_document, chooseHandler, hsz, hplain, hnone m hm]

/-- Witness for C9: the dispatch table knows `application/pdf`, a handler
is found for it, and `application/zip` (outside the list) is rejected. -/
theorem claim_C9_witness :
    (parser_dispatcher_mime "application/pdf").isSome ∧
      (chooseHandler "application/pdf" ".pdf").1.isSome ∧
      process_document ⟨2, "application/zip", "b.zip"⟩ runOk
        = Except.error (PyExc.unsupportedFileType "Unsupported file type: application/zip") := by
  refine ⟨?_, ?_, ?_⟩
  · exact (claim_C9.1 "application/pdf").mpr (by decide)
  · exact claim_C9.2.1 "application/pdf" (by decide) ".pdf"
  · exact (claim_C9.2.2.2 "application/zip" (by decide) "b.zip" 2 runOk (by decide)).trans
      (by decide)

end OcrService
